import Mathlib

/-!
Verification development for the LLANTERA MÓVIL COFRADÍA voice-assistant
front-end (src/index.tsx).  JavaScript strings are modelled as lists of
Unicode code points (`List Nat`); JavaScript's truthiness test on an
optional string is `truthy`.  Each definition below is a shallow embedding
of the corresponding function in src/index.tsx; line numbers refer to that
file.
-/

/-- A JavaScript string, modelled as its list of Unicode code points. -/
abbrev JSStr := List Nat

/-- Embed a Lean string literal as a `JSStr` (one code point per char). -/
def str (s : String) : JSStr := s.data.map Char.toNat

/-- JavaScript truthiness of an optional string value: `undefined`/`null`
and the empty string are falsy, every other string is truthy. -/
def truthy : Option JSStr → Bool
  | none => false
  | some s => decide (s ≠ [])

/-- The code points matched by JavaScript's `\s` regex class (WhiteSpace
and LineTerminator productions), also the set stripped by
`String.prototype.trim`. -/
def isJsSpace (n : Nat) : Bool :=
  decide (n = 9) || decide (n = 10) || decide (n = 11) || decide (n = 12) ||
  decide (n = 13) || decide (n = 32) || decide (n = 160) || decide (n = 0x1680) ||
  (decide (0x2000 ≤ n) && decide (n ≤ 0x200A)) || decide (n = 0x2028) ||
  decide (n = 0x2029) || decide (n = 0x202F) || decide (n = 0x205F) ||
  decide (n = 0x3000) || decide (n = 0xFEFF)

/-- JavaScript line terminators (the code points not matched by `.`). -/
def isLineTerm (n : Nat) : Bool :=
  decide (n = 10) || decide (n = 13) || decide (n = 0x2028) || decide (n = 0x2029)

/-- `String.prototype.trim`: strip leading and trailing whitespace. -/
def trimJS (s : JSStr) : JSStr :=
  ((s.dropWhile isJsSpace).reverse.dropWhile isJsSpace).reverse

/-- `pat` is a prefix of `s` (decidable, used by the substring search). -/
def leadsList : JSStr → JSStr → Bool
  | [], _ => true
  | _ :: _, [] => false
  | a :: as, b :: bs => decide (a = b) && leadsList as bs

/-- Index of the first occurrence of `pat` as a contiguous substring of
`s` (the position where a JavaScript regex made of literal characters
first matches). -/
def findSub (pat : JSStr) : JSStr → Option Nat
  | [] => if leadsList pat [] then some 0 else none
  | c :: rest =>
    if leadsList pat (c :: rest) then some 0
    else (findSub pat rest).map (· + 1)

/-- ASCII uppercase test, the character class `[A-Z]` of the renaming
regexes in src/index.tsx lines 74-79. -/
def isUpperAZ (n : Nat) : Bool := decide (65 ≤ n) && decide (n ≤ 90)

/-- ASCII lowercase test, the character class `[a-z]` of the renaming
regexes in src/index.tsx lines 74-79. -/
def isLowerAZ (n : Nat) : Bool := decide (97 ≤ n) && decide (n ≤ 122)

/-- Lowercasing of one code point as `String.prototype.toLowerCase`
performs it on the ASCII range (the only range the renaming pipeline's
regexes distinguish). -/
def toLowerAscii (n : Nat) : Nat := if isUpperAZ n then n + 32 else n

/-- `String.prototype.toLowerCase` restricted to the ASCII range. -/
def jsToLowerCase (s : JSStr) : JSStr := s.map toLowerAscii

/-- First `replace` pass of `camelCaseToDash` (index.tsx line 76):
`str.replace(/([a-z])([A-Z])/g, '$1-$2')`.  The scan is left-to-right and
non-overlapping: after a match the scan resumes past the matched pair.
45 is the code point of `-`. -/
def replaceLowerUpper : JSStr → JSStr
  | a :: b :: rest =>
    if isLowerAZ a && isUpperAZ b then a :: 45 :: b :: replaceLowerUpper rest
    else a :: replaceLowerUpper (b :: rest)
  | s => s

/-- Second `replace` pass of `camelCaseToDash` (index.tsx line 77):
`str.replace(/([A-Z])([A-Z][a-z])/g, '$1-$2')`, left-to-right and
non-overlapping over the three matched characters. -/
def replaceUpperUpperLower : JSStr → JSStr
  | a :: b :: c :: rest =>
    if isUpperAZ a && (isUpperAZ b && isLowerAZ c) then
      a :: 45 :: b :: c :: replaceUpperUpperLower rest
    else a :: replaceUpperUpperLower (b :: c :: rest)
  | s => s

/-- `camelCaseToDash` (index.tsx lines 74-79): two regex-replace passes
followed by `toLowerCase`. -/
def camelCaseToDash (s : JSStr) : JSStr :=
  jsToLowerCase (replaceUpperUpperLower (replaceLowerUpper s))

example : camelCaseToDash (str "viewLocationGoogleMaps") =
    str "view-location-google-maps" := by decide

example : camelCaseToDash (str "HTMLParser") = str "html-parser" := by decide

/-- Opening delimiter of the confirmation block (index.tsx lines 193, 205, 221). -/
def openTag : JSStr := str "<service_confirmation>"

/-- Closing delimiter of the confirmation block (index.tsx lines 193, 205, 221). -/
def closeTag : JSStr := str "</service_confirmation>"

/-- First match of the extraction regex
`/<service_confirmation>([\s\S]*?)<\/service_confirmation>/` (index.tsx
lines 220-222): the capture group of the leftmost match, whose non-greedy
body ends at the first closing tag after the first opening tag. -/
def confirmationMatch (s : JSStr) : Option JSStr :=
  match findSub openTag s with
  | none => none
  | some i =>
    let afterOpen := s.drop (i + openTag.length)
    match findSub closeTag afterOpen with
    | none => none
    | some j => some (afterOpen.take j)

/-- The non-global `replace` of the same regex with `''` (index.tsx lines
192-196 during streaming and 204-206 after completion): delete the first
match, keep everything else. -/
def redactConfirmation (s : JSStr) : JSStr :=
  match findSub openTag s with
  | none => s
  | some i =>
    let afterOpen := s.drop (i + openTag.length)
    match findSub closeTag afterOpen with
    | none => s
    | some j => s.take i ++ afterOpen.drop (j + closeTag.length)

/-- Capture group of the first match of `/Label:\s*(.*)/` in `s`
(index.tsx lines 226-229): after the first occurrence of the literal
label, greedy `\s*` skips whitespace (including line terminators), then
`(.*)` captures up to the next line terminator. -/
def capture (label : JSStr) (s : JSStr) : Option JSStr :=
  (findSub label s).map (fun i =>
    ((s.drop (i + label.length)).dropWhile isJsSpace).takeWhile
      (fun c => !(isLineTerm c)))

/-- Service status values (map_app part, line 468). -/
inductive ServiceStatus where
  | Pendiente
  | Aprobado
  | EnProceso
  | Terminado
deriving DecidableEq

/-- `ServiceHistoryItem` (map_app part, lines 470-479).  The generated id
and the creation time are modelled as data chosen outside the function
(`Date`/`Math.random` are external). -/
structure ServiceHistoryItem where
  id : JSStr
  name : JSStr
  phone : JSStr
  address : JSStr
  details : JSStr
  timestamp : Nat
  status : ServiceStatus
  price : Option JSStr
deriving DecidableEq

/-- The `details` object passed to `addServiceToHistory` (index.tsx lines
237-242). -/
structure ServicePayload where
  name : JSStr
  phone : JSStr
  address : JSStr
  details : JSStr
deriving DecidableEq

/-- `MapApp.addServiceToHistory` (map_app part, lines 1014-1029): prepend
a new record with status `Pendiente` and `price: null`; the fresh id and
timestamp are parameters. -/
def addServiceToHistory (d : ServicePayload) (hist : List ServiceHistoryItem)
    (id : JSStr) (ts : Nat) : List ServiceHistoryItem :=
  { id := id, name := d.name, phone := d.phone, address := d.address,
    details := d.details, timestamp := ts,
    status := ServiceStatus.Pendiente, price := none } :: hist

/-- Post-processing of the accumulated turn text (index.tsx lines
219-244): match the confirmation block, extract and trim the four
labelled values, and commit a history record when name, address and phone
are all truthy, defaulting `details` to `'No especificado'`. -/
def processConfirmation (newCode : JSStr) (hist : List ServiceHistoryItem)
    (id : JSStr) (ts : Nat) : List ServiceHistoryItem :=
  match confirmationMatch newCode with
  | none => hist
  | some detailsText =>
    let name := (capture (str "Name:") detailsText).map trimJS
    let phone := (capture (str "Phone:") detailsText).map trimJS
    let details := (capture (str "Details:") detailsText).map trimJS
    let address := (capture (str "Address:") detailsText).map trimJS
    if truthy name && truthy address && truthy phone then
      addServiceToHistory
        { name := name.getD [], phone := phone.getD [],
          address := address.getD [],
          details := if truthy details then details.getD []
                     else str "No especificado" }
        hist id ts
    else hist

/-- The parameter object received by `MapApp.handleMapQuery` (index.tsx
line 91, map_app part line 969). -/
structure MapParams where
  location : Option JSStr := none
  origin : Option JSStr := none
  destination : Option JSStr := none

/-- The map operation selected by the dispatch: the private helpers
`_handleViewLocation` and `_handleDirections` (map-query execution is an
external collaborator), or no operation at all. -/
inductive MapAction where
  | viewLocation (q : JSStr)
  | directions (o d : JSStr)
  | noOp
deriving DecidableEq

/-- `MapApp.handleMapQuery` (map_app part, lines 969-978): truthiness
dispatch, first match wins, silent no-op otherwise. -/
def handleMapQuery (params : MapParams) : MapAction :=
  if truthy params.location then MapAction.viewLocation (params.location.getD [])
  else if truthy params.origin && truthy params.destination then
    MapAction.directions (params.origin.getD []) (params.destination.getD [])
  else if truthy params.destination then
    MapAction.viewLocation (params.destination.getD [])
  else MapAction.noOp

example : confirmationMatch (str "a<service_confirmation>X</service_confirmation>b") =
    some (str "X") := by decide

example : redactConfirmation (str "a<service_confirmation>X</service_confirmation>b") =
    str "ab" := by decide

example : capture (str "Name:") (str "x Name:  Juan P\nrest") = some (str "Juan P") := by
  decide

/-- Chat state enum (map_app part, lines 438-443). -/
inductive ChatState where
  | IDLE
  | GENERATING
  | THINKING
  | EXECUTING
deriving DecidableEq

/-- A rendered chat message: the `div` produced by `MapApp.addMessage`
(map_app part, lines 984-1012).  `role` is the (trimmed) role string of
the `role-...` class; `thinking` is the content of the thinking
container; `text` is the content of the `.text` element.  Markdown
rendering (`marked.parse`) is modelled as the identity on the text. -/
structure Message where
  role : JSStr
  thinking : JSStr
  text : JSStr
deriving DecidableEq

/-- `MapApp.addMessage` on the message list (map_app part, lines
984-1012): append a message whose class role is the trimmed role. -/
def addMessageToState (msgs : List Message) (role text : JSStr) : List Message :=
  msgs ++ [{ role := trimJS role, thinking := [], text := text }]

/-- One streamed response part (index.tsx lines 156-199).  A part may
carry a function call and also a thought or text; `thought`/`text` are
tested for truthiness, the function call for presence. -/
structure StreamPart where
  functionCall : Option JSStr := none
  thought : Option JSStr := none
  text : Option JSStr := none

/-- Accumulator state of the streaming loop of `sendMessageHandler`
(index.tsx lines 107-201): the raw accumulated model text `newCode`, the
thought buffer, the turn message's rendered text (`textElement.innerHTML`),
the function-call explanation messages appended so far, and the chat
state. -/
structure StreamAcc where
  newCode : JSStr
  thought : JSStr
  mainText : JSStr
  fnMsgs : List Message
  chatState : ChatState
deriving DecidableEq

/-- Accumulator at loop entry (index.tsx lines 104-108): state
`GENERATING`, placeholder text `'...'`, empty buffers. -/
def initAcc : StreamAcc :=
  { newCode := [], thought := [], mainText := str "...",
    fnMsgs := [], chatState := ChatState.GENERATING }

/-- The explanation text rendered for a function call (index.tsx lines
165-178).  The JSON pretty-printing of the payload is abstracted; the
literal `'Calling function:'` prefix and the dash-renamed tool name are
kept, separated by the newline of the original template. -/
def fnExplanation (name : JSStr) : JSStr :=
  str "Calling function:" ++ 10 :: camelCaseToDash name

/-- One iteration of the streaming loop body (index.tsx lines 158-197):
a present function call appends an explanation message; then a truthy
thought extends the thought buffer (state `THINKING`), otherwise truthy
text extends `newCode` and re-renders the redacted text (state
`EXECUTING`). -/
def processPart (acc : StreamAcc) (p : StreamPart) : StreamAcc :=
  let acc1 := match p.functionCall with
    | some name =>
      { acc with fnMsgs := acc.fnMsgs ++
          [{ role := str "assistant", thinking := [], text := fnExplanation name }] }
    | none => acc
  if truthy p.thought then
    { acc1 with chatState := ChatState.THINKING,
                thought := acc1.thought ++ 32 :: (p.thought.getD []) }
  else if truthy p.text then
    let nc := acc1.newCode ++ p.text.getD []
    { acc1 with chatState := ChatState.EXECUTING,
                newCode := nc, mainText := redactConfirmation nc }
  else acc1

/-- The accumulator after consuming the whole stream of a turn. -/
def turnAcc (parts : List StreamPart) : StreamAcc := parts.foldl processPart initAcc

/-- `mapApp.messages` as seen at index.tsx line 257, after the streaming
loop: the prior messages, the turn's main message (currently holding the
streamed text and thought), and the function-call explanation messages. -/
def allTurnMessages (msgs0 : List Message) (parts : List StreamPart) : List Message :=
  msgs0 ++ { role := str "assistant", thinking := (turnAcc parts).thought,
             text := (turnAcc parts).mainText } :: (turnAcc parts).fnMsgs

/-- `el.innerHTML.includes('Calling function:')` for a message (index.tsx
lines 257-259): the marker may appear in the thinking container or in the
text element. -/
def mentionsFnCall (m : Message) : Bool :=
  (findSub (str "Calling function:") m.thinking).isSome ||
  (findSub (str "Calling function:") m.text).isSome

/-- `mapApp.messages.some((el) => el.innerHTML.includes('Calling function:'))`
(index.tsx lines 257-259). -/
def hasFnMsg (msgs : List Message) : Bool := msgs.any mentionsFnCall

/-- The emptiness test of index.tsx lines 253-256: the rendered text is
still the placeholder `'...'` or trims to the empty string. -/
def emptyish (t : JSStr) : Bool :=
  decide (trimJS t = str "...") || decide (trimJS t = [])

/-- Final text of the turn's main message (index.tsx lines 253-265): when
the rendered text is empty-ish, substitute `'Done.'` if no message of the
conversation mentions a function call, otherwise clear a remaining
placeholder. -/
def finalMainText (msgs0 : List Message) (parts : List StreamPart) : JSStr :=
  let m := (turnAcc parts).mainText
  if emptyish m then
    if !(hasFnMsg (allTurnMessages msgs0 parts)) then str "Done."
    else if trimJS m = str "..." then []
    else m
  else m

/-- The trigger test of index.tsx lines 212-217 arming location-selection
mode. -/
def includesTrigger (newCode : JSStr) : Bool :=
  (findSub (str "click on the map") (jsToLowerCase newCode)).isSome ||
  (findSub (str "clic en el mapa") (jsToLowerCase newCode)).isSome

/-- Outcome of the model interaction of one turn: either the full stream
completes, or an exception is thrown after a prefix of the stream was
processed (index.tsx lines 110-277).  The error text is the message
string computed at lines 268-273. -/
inductive TurnOutcome where
  | ok (parts : List StreamPart)
  | threwAfter (parts : List StreamPart) (errMsg : JSStr)

/-- The component state touched by `sendMessageHandler`. -/
structure HandlerResult where
  messages : List Message
  serviceHistory : List ServiceHistoryItem
  chatState : ChatState
  locationSelectionMode : Bool
deriving DecidableEq

/-- `mapApp.sendMessageHandler` (index.tsx lines 98-281) as a state
transformer.  On success: the main message receives the final rendered
text, location-selection mode is armed by the trigger phrases, and the
confirmation post-processing may commit a history record.  On an
exception: the messages mutated so far remain, a single error message
`Error: ...` is appended (lines 266-277), and the confirmation and
trigger steps are skipped.  The `finally` block (lines 278-280) sets the
chat state to `IDLE` on both paths.  The fresh record id and timestamp
are parameters; speech output and scrolling are external effects. -/
def sendMessageHandlerModel (msgs0 : List Message)
    (hist0 : List ServiceHistoryItem) (locMode0 : Bool) (_input : JSStr)
    (outcome : TurnOutcome) (id : JSStr) (ts : Nat) : HandlerResult :=
  match outcome with
  | TurnOutcome.threwAfter parts e =>
    { messages := allTurnMessages msgs0 parts ++
        [{ role := str "error", thinking := [], text := str "Error: " ++ e }],
      serviceHistory := hist0,
      chatState := ChatState.IDLE,
      locationSelectionMode := locMode0 }
  | TurnOutcome.ok parts =>
    { messages := msgs0 ++
        { role := str "assistant", thinking := (turnAcc parts).thought,
          text := finalMainText msgs0 parts } :: (turnAcc parts).fnMsgs,
      serviceHistory := processConfirmation (turnAcc parts).newCode hist0 id ts,
      chatState := ChatState.IDLE,
      locationSelectionMode := if includesTrigger (turnAcc parts).newCode then true
                               else locMode0 }

/-- Role of an entry of the reconstructed model history (index.tsx lines
136-140). -/
inductive HistoryRole where
  | user
  | model
deriving DecidableEq

/-- `chatHistory` (index.tsx lines 130-141): drop error messages, map the
remaining rendered messages to role/text pairs, the text being the
trimmed text content. -/
def chatHistory (msgs : List Message) : List (HistoryRole × JSStr) :=
  (msgs.filter (fun m => !(decide (m.role = str "error")))).map
    (fun m => (if m.role = str "user" then HistoryRole.user else HistoryRole.model,
               trimJS m.text))

/-- `chatHistory.slice(0, -1)` (index.tsx line 150): the history handed
to the new chat session, without its last entry. -/
def projectedChatHistory (msgs : List Message) : List (HistoryRole × JSStr) :=
  (chatHistory msgs).dropLast

/-- `currentView` values (map_app part, line 507). -/
inductive View where
  | chat
  | admin
deriving DecidableEq

/-- `currentAdminTab` values (map_app part, line 513). -/
inductive AdminTab where
  | history
  | inventory
deriving DecidableEq

/-- The component state read and written by `MapApp.sendMessageAction`
(map_app part, lines 500-513). -/
structure AppState where
  chatState : ChatState
  inputMessage : JSStr
  messages : List Message
  currentView : View
  currentAdminTab : AdminTab
  serviceHistory : List ServiceHistoryItem
  isLocationSelectionMode : Bool
deriving DecidableEq

/-- Tail of `sendMessageAction` from line 1066 on: empty message is a
no-op; a user or system message is appended to the display (system is
shown as assistant); the handler is invoked with the message and the
role, system mapped to user.  The second component is the started model
turn (`none` when no turn starts). -/
def sendPhase2 (st : AppState) (msg msgRole : JSStr) :
    AppState × Option (JSStr × JSStr) :=
  if msg = [] then (st, none)
  else
    let st3 := if msgRole = str "user" ∨ (msgRole = str "system" ∧ msg ≠ []) then
        { st with messages := (addMessageToState st.messages
            (if msgRole = str "system" then str "assistant" else msgRole) msg) }
      else st
    (st3, some (msg, if msgRole = str "system" then str "user" else msgRole))

/-- `MapApp.sendMessageAction` (map_app part, lines 1039-1085).  Non-IDLE
state returns immediately; with no (truthy) explicit message the typed
input is taken, and the admin keyword switches to the admin view without
sending anything; speech-synthesis cancellation is an external effect. -/
def sendMessageAction (st : AppState) (message : Option JSStr)
    (role : Option JSStr) : AppState × Option (JSStr × JSStr) :=
  if st.chatState ≠ ChatState.IDLE then (st, none)
  else
    let st1 := if st.isLocationSelectionMode && !(truthy message) then
        { st with isLocationSelectionMode := false }
      else st
    let msgRole := match role with
      | some r => jsToLowerCase r
      | none => str "user"
    if truthy message then
      sendPhase2 st1 (trimJS (message.getD [])) msgRole
    else
      let msg := trimJS st1.inputMessage
      if jsToLowerCase msg = str "soy administrador" then
        ({ st1 with currentView := View.admin,
                    currentAdminTab := AdminTab.history,
                    inputMessage := [] }, none)
      else
        let st2 := if msg ≠ [] then { st1 with inputMessage := [] } else st1
        sendPhase2 st2 msg msgRole

/-- `MapApp._handleApprove` without its UI side effect (map_app part,
lines 1087-1097): if an item with the id exists, set every item with
that id to `Aprobado`. -/
def handleApprove (hist : List ServiceHistoryItem) (serviceId : JSStr) :
    List ServiceHistoryItem :=
  match hist.find? (fun s => decide (s.id = serviceId)) with
  | none => hist
  | some _ => hist.map (fun s =>
      if s.id = serviceId then { s with status := ServiceStatus.Aprobado } else s)

/-- `MapApp._handleProcess` without its UI side effect (map_app part,
lines 1099-1110). -/
def handleProcess (hist : List ServiceHistoryItem) (serviceId : JSStr) :
    List ServiceHistoryItem :=
  match hist.find? (fun s => decide (s.id = serviceId)) with
  | none => hist
  | some _ => hist.map (fun s =>
      if s.id = serviceId then { s with status := ServiceStatus.EnProceso } else s)

/-- `MapApp._handleFinish` (map_app part, lines 1112-1127); the `prompt`
result is a parameter.  Only a non-null price with non-empty trim
commits the terminal transition, which also stores the price. -/
def handleFinish (hist : List ServiceHistoryItem) (serviceId : JSStr)
    (price : Option JSStr) : List ServiceHistoryItem :=
  match hist.find? (fun s => decide (s.id = serviceId)) with
  | none => hist
  | some _ =>
    match price with
    | none => hist
    | some p =>
      if trimJS p ≠ [] then
        hist.map (fun s =>
          if s.id = serviceId then
            { s with status := ServiceStatus.Terminado, price := some p }
          else s)
      else hist

/-- A status-changing admin operation with its external inputs. -/
inductive AdminAction where
  | approve (id : JSStr)
  | process (id : JSStr)
  | finish (id : JSStr) (price : Option JSStr)

/-- Whether the button firing the operation is rendered for some item
with the given id (map_app part, lines 1377-1399): `Aprobar` only on a
`Pendiente` item, `En Proceso` only on an `Aprobado` item, `Terminar`
only on an `En Proceso` item. -/
def actionRendered (hist : List ServiceHistoryItem) : AdminAction → Bool
  | AdminAction.approve i =>
    hist.any (fun s => decide (s.id = i) && decide (s.status = ServiceStatus.Pendiente))
  | AdminAction.process i =>
    hist.any (fun s => decide (s.id = i) && decide (s.status = ServiceStatus.Aprobado))
  | AdminAction.finish i _ =>
    hist.any (fun s => decide (s.id = i) && decide (s.status = ServiceStatus.EnProceso))

/-- One admin interaction: the handler runs only when its button is
rendered (the handlers are private and reachable solely through the
conditional buttons of `renderServiceHistory`). -/
def applyAdminAction (hist : List ServiceHistoryItem) (a : AdminAction) :
    List ServiceHistoryItem :=
  if actionRendered hist a then
    match a with
    | AdminAction.approve i => handleApprove hist i
    | AdminAction.process i => handleProcess hist i
    | AdminAction.finish i price => handleFinish hist i price
  else hist

/-- A sequence of admin interactions. -/
def applyAdminActions (hist : List ServiceHistoryItem)
    (acts : List AdminAction) : List ServiceHistoryItem :=
  acts.foldl applyAdminAction hist

/-- Position of a status along the `Pendiente → Aprobado → En Proceso →
Terminado` chain. -/
def statusRank : ServiceStatus → Nat
  | ServiceStatus.Pendiente => 0
  | ServiceStatus.Aprobado => 1
  | ServiceStatus.EnProceso => 2
  | ServiceStatus.Terminado => 3

/-- Invariant of reachable service histories: ids are pairwise distinct
(each record gets a fresh generated id) and only `Terminado` records
carry a price (`addServiceToHistory` starts every record at `Pendiente`
with `price: null`). -/
def HistInv (hist : List ServiceHistoryItem) : Prop :=
  hist.Pairwise (fun a b => a.id ≠ b.id) ∧
  ∀ s ∈ hist, s.price ≠ none → s.status = ServiceStatus.Terminado

/-- One admin interaction moves a record at most one stage forward along
the status chain, and changes the price only on the transition into
`Terminado`, from `null`. -/
def StepForward (old new : ServiceHistoryItem) : Prop :=
  (new.status = old.status ∨ statusRank new.status = statusRank old.status + 1) ∧
  (new.price ≠ old.price →
    old.price = none ∧ old.status = ServiceStatus.EnProceso ∧
    new.status = ServiceStatus.Terminado)

/-! ### Helper lemmas -/

lemma isUpperAZ_toLowerAscii (n : Nat) : isUpperAZ (toLowerAscii n) = false := by
  unfold toLowerAscii isUpperAZ
  split <;> simp_all <;> omega

lemma mem_jsToLowerCase_noUpper (s : JSStr) :
    ∀ n ∈ jsToLowerCase s, isUpperAZ n = false := by
  intro n hn
  unfold jsToLowerCase at hn
  obtain ⟨m, -, rfl⟩ := List.mem_map.mp hn
  exact isUpperAZ_toLowerAscii m

lemma toLowerAscii_fix (n : Nat) (h : isUpperAZ n = false) : toLowerAscii n = n := by
  unfold toLowerAscii
  simp [h]

lemma jsToLowerCase_fix (s : JSStr) (h : ∀ n ∈ s, isUpperAZ n = false) :
    jsToLowerCase s = s := by
  induction s with
  | nil => rfl
  | cons a t ih =>
    have ha := toLowerAscii_fix a (h a (by simp))
    have ht := ih (fun n hn => h n (List.mem_cons_of_mem _ hn))
    simp only [jsToLowerCase, List.map_cons] at ht ⊢
    rw [ha, ht]

lemma replaceLowerUpper_fix (s : JSStr) (h : ∀ n ∈ s, isUpperAZ n = false) :
    replaceLowerUpper s = s := by
  induction s with
  | nil => rfl
  | cons a t ih =>
    cases t with
    | nil => rfl
    | cons b u =>
      have hb : isUpperAZ b = false := h b (by simp)
      have ht := ih (fun n hn => h n (List.mem_cons_of_mem _ hn))
      simp [replaceLowerUpper, hb, ht]

lemma replaceUpperUpperLower_fix (s : JSStr) (h : ∀ n ∈ s, isUpperAZ n = false) :
    replaceUpperUpperLower s = s := by
  induction s with
  | nil => rfl
  | cons a t ih =>
    cases t with
    | nil => rfl
    | cons b u =>
      cases u with
      | nil => rfl
      | cons c v =>
        have ha : isUpperAZ a = false := h a (by simp)
        have ht := ih (fun n hn => h n (List.mem_cons_of_mem _ hn))
        simp [replaceUpperUpperLower, ha, ht]

/-! ### Claim theorems -/

/-- Claim C1: for every `MapQueryParams` value passed to `handleMapQuery`,
a present (non-empty) `location` routes to the view-location operation
with that location; otherwise present `origin` and `destination` route to
the compute-route operation; otherwise a present `destination` alone
routes to view-location with its value; otherwise nothing is invoked and
the call returns without error. -/
theorem C1_map_query_dispatch (params : MapParams) :
    (truthy params.location = true →
      handleMapQuery params = MapAction.viewLocation (params.location.getD [])) ∧
    (truthy params.location = false → truthy params.origin = true →
      truthy params.destination = true →
      handleMapQuery params =
        MapAction.directions (params.origin.getD []) (params.destination.getD [])) ∧
    (truthy params.location = false → truthy params.origin = false →
      truthy params.destination = true →
      handleMapQuery params = MapAction.viewLocation (params.destination.getD [])) ∧
    (truthy params.location = false → truthy params.destination = false →
      handleMapQuery params = MapAction.noOp) := by
  refine ⟨fun h1 => ?_, fun h1 h2 h3 => ?_, fun h1 h2 h3 => ?_, fun h1 h3 => ?_⟩ <;>
    simp [handleMapQuery, h1, *]

/-- Witness for C1 at the four concrete dispatch shapes of the spec. -/
theorem C1_map_query_dispatch_witness :
    handleMapQuery { location := some (str "X") } = MapAction.viewLocation (str "X") ∧
    handleMapQuery { origin := some (str "A"), destination := some (str "B") } =
      MapAction.directions (str "A") (str "B") ∧
    handleMapQuery { destination := some (str "B") } =
      MapAction.viewLocation (str "B") ∧
    handleMapQuery {} = MapAction.noOp :=
  ⟨(C1_map_query_dispatch _).1 (by decide),
   (C1_map_query_dispatch _).2.1 (by decide) (by decide) (by decide),
   (C1_map_query_dispatch _).2.2.1 (by decide) (by decide) (by decide),
   (C1_map_query_dispatch _).2.2.2 (by decide) (by decide)⟩

/-- Claim C4: `camelCaseToDash` never produces ASCII uppercase characters
and is idempotent on its own image. -/
theorem C4_camel_dash (s : JSStr) :
    (∀ n ∈ camelCaseToDash s, isUpperAZ n = false) ∧
    camelCaseToDash (camelCaseToDash s) = camelCaseToDash s := by
  have hnu : ∀ n ∈ camelCaseToDash s, isUpperAZ n = false := by
    unfold camelCaseToDash
    exact mem_jsToLowerCase_noUpper _
  refine ⟨hnu, ?_⟩
  show jsToLowerCase (replaceUpperUpperLower (replaceLowerUpper (camelCaseToDash s))) =
    camelCaseToDash s
  rw [replaceLowerUpper_fix _ hnu, replaceUpperUpperLower_fix _ hnu,
    jsToLowerCase_fix _ hnu]

/-- Witness for C4 at a concrete tool name. -/
theorem C4_camel_dash_witness :
    isUpperAZ 118 = false ∧
    camelCaseToDash (camelCaseToDash (str "viewLocationGoogleMaps")) =
      camelCaseToDash (str "viewLocationGoogleMaps") :=
  ⟨(C4_camel_dash (str "viewLocationGoogleMaps")).1 118 (by decide),
   (C4_camel_dash (str "viewLocationGoogleMaps")).2⟩

/-- Claim C5: while the chat state is not `IDLE`, the send action leaves
the whole component state unchanged, appends no message and starts no
model turn. -/
theorem C5_send_noop_when_busy (st : AppState) (message role : Option JSStr)
    (h : st.chatState ≠ ChatState.IDLE) :
    sendMessageAction st message role = (st, none) := by
  simp [sendMessageAction, h]

/-- Witness for C5 at a concrete busy state. -/
theorem C5_send_noop_when_busy_witness :
    sendMessageAction
      { chatState := ChatState.GENERATING, inputMessage := str "hola",
        messages := [], currentView := View.chat,
        currentAdminTab := AdminTab.history, serviceHistory := [],
        isLocationSelectionMode := false } (some (str "m")) none =
    ({ chatState := ChatState.GENERATING, inputMessage := str "hola",
       messages := [], currentView := View.chat,
       currentAdminTab := AdminTab.history, serviceHistory := [],
       isLocationSelectionMode := false }, none) :=
  C5_send_noop_when_busy _ (some (str "m")) none (by decide)

/-- Claim C7: the history projected for the next model invocation from a
message list ending in the just-appended in-progress assistant reply
drops that last message, excludes every error-role message, maps user
messages to the user role and all others to the model role, each paired
with its trimmed displayed text. -/
theorem C7_projected_history (msgs : List Message) (th t : JSStr) :
    projectedChatHistory
        (msgs ++ [{ role := str "assistant", thinking := th, text := t }]) =
      (msgs.filter (fun m => !(decide (m.role = str "error")))).map
        (fun m => (if m.role = str "user" then HistoryRole.user
                   else HistoryRole.model, trimJS m.text)) := by
  have hkeep : (!(decide ((str "assistant") = str "error"))) = true := by decide
  unfold projectedChatHistory chatHistory
  rw [List.filter_append]
  simp only [List.filter_cons, hkeep, List.filter_nil, if_true]
  rw [List.map_append]
  simp [List.dropLast_concat]

/-- The state produced by the admin-keyword branch of
`sendMessageAction` (map_app part, lines 1054-1060). -/
def adminSwitch (st : AppState) : AppState :=
  { st with currentView := View.admin, currentAdminTab := AdminTab.history,
            inputMessage := [] }

/-- Claim C10: in `IDLE` state, sending with no explicit message while
the typed input trims and lowercases to `soy administrador` switches to
the admin view on the history tab, clears the input, appends no message
and starts no model turn. -/
theorem C10_admin_keyword (st : AppState) (role : Option JSStr)
    (h1 : st.chatState = ChatState.IDLE)
    (h2 : jsToLowerCase (trimJS st.inputMessage) = str "soy administrador") :
    ∃ st', sendMessageAction st none role = (st', none) ∧
      st'.currentView = View.admin ∧ st'.currentAdminTab = AdminTab.history ∧
      st'.inputMessage = [] ∧ st'.messages = st.messages ∧
      st'.serviceHistory = st.serviceHistory := by
  by_cases hm : st.isLocationSelectionMode
  · refine ⟨adminSwitch { st with isLocationSelectionMode := false },
      ?_, rfl, rfl, rfl, rfl, rfl⟩
    simp [sendMessageAction, adminSwitch, h1, hm, truthy, h2]
  · refine ⟨adminSwitch st, ?_, rfl, rfl, rfl, rfl, rfl⟩
    simp [sendMessageAction, adminSwitch, h1, hm, truthy, h2]

/-- Witness for C10 at a concrete idle state typing the admin keyword. -/
theorem C10_admin_keyword_witness :
    ∃ st', sendMessageAction
        { chatState := ChatState.IDLE, inputMessage := str "  Soy ADMINISTRADOR ",
          messages := [], currentView := View.chat,
          currentAdminTab := AdminTab.inventory, serviceHistory := [],
          isLocationSelectionMode := false } none none = (st', none) ∧
      st'.currentView = View.admin ∧ st'.currentAdminTab = AdminTab.history ∧
      st'.inputMessage = [] ∧ st'.messages = [] ∧ st'.serviceHistory = [] :=
  C10_admin_keyword _ none (by decide) (by decide)

/-- Reduction of `processConfirmation` once the block match is known. -/
lemma processConfirmation_eq (newCode dt : JSStr) (hist : List ServiceHistoryItem)
    (id : JSStr) (ts : Nat) (hw : confirmationMatch newCode = some dt) :
    processConfirmation newCode hist id ts =
      if truthy ((capture (str "Name:") dt).map trimJS) &&
         truthy ((capture (str "Address:") dt).map trimJS) &&
         truthy ((capture (str "Phone:") dt).map trimJS) then
        addServiceToHistory
          { name := ((capture (str "Name:") dt).map trimJS).getD [],
            phone := ((capture (str "Phone:") dt).map trimJS).getD [],
            address := ((capture (str "Address:") dt).map trimJS).getD [],
            details := if truthy ((capture (str "Details:") dt).map trimJS) then
                ((capture (str "Details:") dt).map trimJS).getD []
              else str "No especificado" } hist id ts
      else hist := by
  unfold processConfirmation
  rw [hw]

/-- Claim C2: on a turn text containing a well-formed confirmation block,
a record is committed exactly when the extracted `Name`, `Phone` and
`Address` values are non-empty after trimming; if any is empty or absent
the history is unchanged; a record committed with an empty or absent
`Details` value carries the placeholder `No especificado`. -/
theorem C2_confirmation_commit (newCode dt : JSStr)
    (hist : List ServiceHistoryItem) (id : JSStr) (ts : Nat)
    (hw : confirmationMatch newCode = some dt) :
    ((∃ d, processConfirmation newCode hist id ts = d :: hist) ↔
      (truthy ((capture (str "Name:") dt).map trimJS) = true ∧
       truthy ((capture (str "Phone:") dt).map trimJS) = true ∧
       truthy ((capture (str "Address:") dt).map trimJS) = true)) ∧
    (¬(truthy ((capture (str "Name:") dt).map trimJS) = true ∧
       truthy ((capture (str "Phone:") dt).map trimJS) = true ∧
       truthy ((capture (str "Address:") dt).map trimJS) = true) →
      processConfirmation newCode hist id ts = hist) ∧
    (∀ d, processConfirmation newCode hist id ts = d :: hist →
      truthy ((capture (str "Details:") dt).map trimJS) = false →
      d.details = str "No especificado") := by
  have heq := processConfirmation_eq newCode dt hist id ts hw
  by_cases hc : (truthy ((capture (str "Name:") dt).map trimJS) &&
      truthy ((capture (str "Address:") dt).map trimJS) &&
      truthy ((capture (str "Phone:") dt).map trimJS)) = true
  · obtain ⟨⟨hcn, hca⟩, hcp⟩ :
        (truthy ((capture (str "Name:") dt).map trimJS) = true ∧
         truthy ((capture (str "Address:") dt).map trimJS) = true) ∧
        truthy ((capture (str "Phone:") dt).map trimJS) = true := by
      simpa [Bool.and_eq_true] using hc
    rw [heq, if_pos hc]
    refine ⟨⟨fun _ => ⟨hcn, hcp, hca⟩, fun _ => ⟨_, rfl⟩⟩,
      fun hnot => absurd ⟨hcn, hcp, hca⟩ hnot, fun d hd hdet => ?_⟩
    have hrec := (List.cons.injEq _ _ _ _).mp hd.symm
    rw [hrec.1]
    simp [hdet]
  · have hc' : ¬(truthy ((capture (str "Name:") dt).map trimJS) = true ∧
        truthy ((capture (str "Phone:") dt).map trimJS) = true ∧
        truthy ((capture (str "Address:") dt).map trimJS) = true) := by
      intro hall
      exact hc (by simp [Bool.and_eq_true, hall.1, hall.2.1, hall.2.2])
    rw [heq, if_neg hc]
    refine ⟨⟨fun hex => ?_, fun hall => absurd hall hc'⟩, fun _ => rfl,
      fun d hd _ => absurd hd.symm (List.cons_ne_self d hist)⟩
    obtain ⟨d, hd⟩ := hex
    exact absurd hd.symm (List.cons_ne_self d hist)

/-- Witness for C2: a concrete block with all required fields and absent
`Details` commits a record with the placeholder; a concrete block with an
empty `Name` leaves the history unchanged. -/
theorem C2_confirmation_commit_witness :
    (∃ d, processConfirmation
        (str "<service_confirmation>\nName: Juan\nPhone: 33\nAddress: Calle 1\n</service_confirmation>")
        [] (str "id1") 5 = d :: []) ∧
    processConfirmation
        (str "<service_confirmation>\nPhone: 33\nAddress: Calle 1\n</service_confirmation>x")
        [] (str "id1") 5 = [] := by
  constructor
  · exact (C2_confirmation_commit _
      (str "\nName: Juan\nPhone: 33\nAddress: Calle 1\n") [] (str "id1") 5
      (by decide)).1.mpr ⟨by decide, by decide, by decide⟩
  · exact (C2_confirmation_commit _
      (str "\nPhone: 33\nAddress: Calle 1\n") [] (str "id1") 5
      (by decide)).2.1 (by decide)

/-- Reduction of `redactConfirmation` once both delimiter positions are
known. -/
lemma redactConfirmation_eq (s : JSStr) (i j : Nat)
    (h1 : findSub openTag s = some i)
    (h2 : findSub closeTag (s.drop (i + openTag.length)) = some j) :
    redactConfirmation s =
      s.take i ++ (s.drop (i + openTag.length)).drop (j + closeTag.length) := by
  simp only [redactConfirmation, h1, h2]

/-- Claim C3: on a text containing no well-formed confirmation block the
redaction is the identity; on a text that consists of a prefix, one
delimited block and a suffix — the opening tag being the first opening
match and the block's closing tag the first closing match after it — the
redaction removes exactly the delimited segment and keeps every other
character unchanged. -/
theorem C3_redaction_exact :
    (∀ s : JSStr, confirmationMatch s = none → redactConfirmation s = s) ∧
    (∀ pre mid post : JSStr,
      findSub openTag (pre ++ openTag ++ mid ++ closeTag ++ post) =
        some pre.length →
      findSub closeTag (mid ++ closeTag ++ post) = some mid.length →
      redactConfirmation (pre ++ openTag ++ mid ++ closeTag ++ post) =
        pre ++ post) := by
  constructor
  · intro s h
    cases h1 : findSub openTag s with
    | none => simp only [redactConfirmation, h1]
    | some i =>
      cases h2 : findSub closeTag (s.drop (i + openTag.length)) with
      | none => simp only [redactConfirmation, h1, h2]
      | some j =>
        rw [confirmationMatch] at h
        simp only [h1, h2] at h
        exact absurd h (Option.some_ne_none _)
  · intro pre mid post h1 h2
    have hdrop : (pre ++ openTag ++ mid ++ closeTag ++ post).drop
        (pre.length + openTag.length) = mid ++ closeTag ++ post := by
      have hsplit : pre ++ openTag ++ mid ++ closeTag ++ post =
          (pre ++ openTag) ++ (mid ++ closeTag ++ post) := by
        simp [List.append_assoc]
      rw [hsplit, ← List.length_append]
      exact List.drop_left _ _
    rw [redactConfirmation_eq _ pre.length mid.length h1 (by rw [hdrop]; exact h2),
      hdrop]
    have htake : (pre ++ openTag ++ mid ++ closeTag ++ post).take pre.length = pre := by
      have hsplit : pre ++ openTag ++ mid ++ closeTag ++ post =
          pre ++ (openTag ++ mid ++ closeTag ++ post) := by
        simp [List.append_assoc]
      rw [hsplit]
      exact List.take_left _ _
    have hdrop2 : (mid ++ closeTag ++ post).drop (mid.length + closeTag.length) =
        post := by
      have hsplit : mid ++ closeTag ++ post = (mid ++ closeTag) ++ post := by
        simp [List.append_assoc]
      rw [hsplit, ← List.length_append]
      exact List.drop_left _ _
    rw [htake, hdrop2]

/-- Witness for C3: a concrete block-free text is unchanged; a concrete
single-block text loses exactly the block. -/
theorem C3_redaction_exact_witness :
    redactConfirmation (str "hola") = str "hola" ∧
    redactConfirmation (str "xy" ++ openTag ++ str "N" ++ closeTag ++ str "z") =
      str "xy" ++ str "z" :=
  ⟨C3_redaction_exact.1 (str "hola") (by decide),
   C3_redaction_exact.2 (str "xy") (str "N") (str "z") (by decide) (by decide)⟩

/-- The streaming loop only changes `fnMsgs` by appending the
explanation message of a present function call. -/
lemma processPart_fnMsgs_eq (acc : StreamAcc) (p : StreamPart) :
    (processPart acc p).fnMsgs =
      match p.functionCall with
      | some name => acc.fnMsgs ++
          [{ role := str "assistant", thinking := [], text := fnExplanation name }]
      | none => acc.fnMsgs := by
  unfold processPart
  cases p.functionCall <;> (dsimp only [] ; split <;> (try split) <;> rfl)

/-- Every message appended by the streaming loop carries the assistant
role. -/
lemma foldl_fnMsgs_role (parts : List StreamPart) (acc : StreamAcc)
    (h : ∀ m ∈ acc.fnMsgs, m.role = str "assistant") :
    ∀ m ∈ (parts.foldl processPart acc).fnMsgs, m.role = str "assistant" := by
  induction parts generalizing acc with
  | nil => exact h
  | cons p rest ih =>
    refine ih _ ?_
    intro m hm
    rw [processPart_fnMsgs_eq] at hm
    cases hfc : p.functionCall with
    | none =>
      rw [hfc] at hm
      exact h m hm
    | some name =>
      rw [hfc] at hm
      rcases List.mem_append.mp hm with h1 | h1
      · exact h m h1
      · have hm1 : m = Message.mk (str "assistant") [] (fnExplanation name) := by
          simpa using h1
        rw [hm1]

/-- Claim C6: when the model interaction of a turn throws, exactly one
error-role message holding the failure text is appended after the
messages produced so far (which are all assistant-role), the chat state
is `IDLE` when the handler returns, and it is also `IDLE` after every
successful turn.  The model is invoked once per turn; no retry exists in
the handler. -/
theorem C6_error_turn (msgs0 : List Message) (hist0 : List ServiceHistoryItem)
    (locMode : Bool) (input id : JSStr) (ts : Nat) (parts : List StreamPart)
    (e : JSStr) :
    (sendMessageHandlerModel msgs0 hist0 locMode input
        (TurnOutcome.threwAfter parts e) id ts).chatState = ChatState.IDLE ∧
    (∃ mid, (sendMessageHandlerModel msgs0 hist0 locMode input
          (TurnOutcome.threwAfter parts e) id ts).messages =
        msgs0 ++ mid ++
          [{ role := str "error", thinking := [], text := str "Error: " ++ e }] ∧
      ∀ m ∈ mid, m.role ≠ str "error") ∧
    ∀ parts2, (sendMessageHandlerModel msgs0 hist0 locMode input
        (TurnOutcome.ok parts2) id ts).chatState = ChatState.IDLE := by
  refine ⟨rfl, ⟨Message.mk (str "assistant") (turnAcc parts).thought
      (turnAcc parts).mainText :: (turnAcc parts).fnMsgs, ?_, ?_⟩,
    fun parts2 => rfl⟩
  · show allTurnMessages msgs0 parts ++ _ = _
    unfold allTurnMessages
    simp [List.append_assoc]
  · intro m hm
    rcases List.mem_cons.mp hm with h1 | h1
    · rw [h1]
      show str "assistant" ≠ str "error"
      decide
    · have hrole := foldl_fnMsgs_role parts initAcc (by simp [initAcc]) m h1
      rw [hrole]
      decide

/-- Witness for C6 at a concrete thrown turn. -/
theorem C6_error_turn_witness :
    (sendMessageHandlerModel [] [] false (str "hola")
        (TurnOutcome.threwAfter [] (str "boom")) (str "id") 0).chatState =
      ChatState.IDLE :=
  (C6_error_turn [] [] false (str "hola") (str "id") 0 [] (str "boom")).1

/-- Counterexample to claim C8 as stated: with a tool-call explanation
message left over from an earlier turn, a turn that streams no parts at
all (so no explanation is emitted during the turn) and ends with empty
rendered text does not receive the `Done.` notice — the code checks the
whole conversation, not the current turn. -/
theorem C8_counterexample :
    (sendMessageHandlerModel
        [{ role := str "assistant", thinking := [],
           text := str "Calling function: earlier" }]
        [] false (str "hola") (TurnOutcome.ok []) (str "id") 0).messages =
      [{ role := str "assistant", thinking := [],
         text := str "Calling function: earlier" },
       { role := str "assistant", thinking := [], text := [] }] ∧
    ([] : JSStr) ≠ str "Done." := by
  constructor
  · decide
  · decide

/-- Claim C8, amended: on a completed stream, if the final rendered text
is empty-ish and no message of the whole conversation (this turn or a
previous one) mentions a tool call, the `Done.` notice is rendered; if
some message of the conversation mentions a tool call, the main output is
left empty after trimming and no notice is substituted. -/
theorem C8_completion_notice (msgs0 : List Message)
    (hist0 : List ServiceHistoryItem) (locMode : Bool) (input id : JSStr)
    (ts : Nat) (parts : List StreamPart) :
    (sendMessageHandlerModel msgs0 hist0 locMode input (TurnOutcome.ok parts)
        id ts).messages =
      msgs0 ++ { role := str "assistant", thinking := (turnAcc parts).thought,
                 text := finalMainText msgs0 parts } :: (turnAcc parts).fnMsgs ∧
    (emptyish (turnAcc parts).mainText = true →
      hasFnMsg (allTurnMessages msgs0 parts) = false →
      finalMainText msgs0 parts = str "Done.") ∧
    (emptyish (turnAcc parts).mainText = true →
      hasFnMsg (allTurnMessages msgs0 parts) = true →
      trimJS (finalMainText msgs0 parts) = [] ∧
      finalMainText msgs0 parts ≠ str "Done.") := by
  refine ⟨rfl, fun he hf => ?_, fun he hf => ?_⟩
  · unfold finalMainText
    simp [he, hf]
  · have hstep : finalMainText msgs0 parts =
        (if trimJS (turnAcc parts).mainText = str "..." then []
         else (turnAcc parts).mainText) := by
      unfold finalMainText
      simp [he, hf]
    by_cases ht : trimJS (turnAcc parts).mainText = str "..."
    · rw [hstep, if_pos ht]
      exact ⟨by decide, by decide⟩
    · have hemp : trimJS (turnAcc parts).mainText = [] := by
        unfold emptyish at he
        simpa [ht] using he
      rw [hstep, if_neg ht]
      refine ⟨hemp, fun hEq => ?_⟩
      rw [hEq] at hemp
      exact absurd hemp (by decide)

/-- Witness for the amended C8 at an empty stream with an empty
conversation. -/
theorem C8_completion_notice_witness :
    finalMainText [] [] = str "Done." :=
  (C8_completion_notice [] [] false (str "x") (str "id") 0 []).2.1
    (by decide) (by decide)

/-- With pairwise-distinct ids, two members of the history sharing an id
are the same record. -/
lemma pairwise_id_unique (hist : List ServiceHistoryItem)
    (h : hist.Pairwise (fun a b => a.id ≠ b.id)) :
    ∀ a ∈ hist, ∀ b ∈ hist, a.id = b.id → a = b := by
  induction hist with
  | nil =>
    intro a ha
    exact absurd ha (List.not_mem_nil a)
  | cons x xs ih =>
    rcases List.pairwise_cons.mp h with ⟨hx, hxs⟩
    intro a ha b hb hab
    rcases List.mem_cons.mp ha with rfl | ha2
    · rcases List.mem_cons.mp hb with rfl | hb2
      · rfl
      · exact absurd hab (hx b hb2)
    · rcases List.mem_cons.mp hb with rfl | hb2
      · exact absurd hab.symm (hx a ha2)
      · exact ih hxs a ha2 b hb2 hab

/-- Core lemma for the guarded id-targeted map update performed by the
three status handlers: it preserves length and the history invariant and
each record makes a `StepForward` move. -/
lemma update_core (hist : List ServiceHistoryItem) (i : JSStr)
    (upd : ServiceHistoryItem → ServiceHistoryItem)
    (hid : ∀ s, (upd s).id = s.id)
    (hInv : HistInv hist)
    (s0 : ServiceHistoryItem) (hs0 : s0 ∈ hist) (hs0i : s0.id = i)
    (hF : StepForward s0 (upd s0))
    (hP : (upd s0).price ≠ none → (upd s0).status = ServiceStatus.Terminado) :
    (hist.map (fun s => if s.id = i then upd s else s)).length = hist.length ∧
    HistInv (hist.map (fun s => if s.id = i then upd s else s)) ∧
    ∀ (k : Nat) (old new : ServiceHistoryItem), hist[k]? = some old →
      (hist.map (fun s => if s.id = i then upd s else s))[k]? = some new →
      StepForward old new := by
  have hfid : ∀ s : ServiceHistoryItem,
      ((fun s => if s.id = i then upd s else s) s).id = s.id := by
    intro s
    by_cases hsi : s.id = i
    · simp [hsi, hid]
    · simp [hsi]
  refine ⟨List.length_map _ _, ⟨?_, ?_⟩, ?_⟩
  · rw [List.pairwise_map]
    refine hInv.1.imp ?_
    intro a b hab
    rw [hfid a, hfid b]
    exact hab
  · intro t ht hp
    obtain ⟨s, hs, rfl⟩ := List.mem_map.mp ht
    by_cases hsi : s.id = i
    · have hss0 : s = s0 :=
        pairwise_id_unique hist hInv.1 s hs s0 hs0 (hsi.trans hs0i.symm)
      rw [if_pos hsi] at hp ⊢
      rw [hss0] at hp ⊢
      exact hP hp
    · rw [if_neg hsi] at hp ⊢
      exact hInv.2 s hs hp
  · intro k old new hk hk'
    rw [List.getElem?_map, hk] at hk'
    have hnew : new = if old.id = i then upd old else old :=
      (Option.some.inj hk').symm
    by_cases hoi : old.id = i
    · have holds0 : old = s0 :=
        pairwise_id_unique hist hInv.1 old (List.getElem?_mem hk) s0 hs0
          (hoi.trans hs0i.symm)
      rw [hnew, if_pos hoi, holds0]
      exact hF
    · rw [hnew, if_neg hoi]
      exact ⟨Or.inl rfl, fun hp => absurd rfl hp⟩

/-- The unchanged history trivially satisfies the per-record step
property. -/
lemma identity_core (hist : List ServiceHistoryItem) (hInv : HistInv hist) :
    hist.length = hist.length ∧ HistInv hist ∧
    ∀ (k : Nat) (old new : ServiceHistoryItem), hist[k]? = some old →
      hist[k]? = some new → StepForward old new := by
  refine ⟨rfl, hInv, fun k old new h1 h2 => ?_⟩
  rw [h1] at h2
  cases Option.some.inj h2
  exact ⟨Or.inl rfl, fun hp => absurd rfl hp⟩

/-- One rendered admin interaction preserves the invariant and moves each
record at most one stage forward. -/
lemma applyAdminAction_core (hist : List ServiceHistoryItem) (a : AdminAction)
    (hInv : HistInv hist) :
    (applyAdminAction hist a).length = hist.length ∧
    HistInv (applyAdminAction hist a) ∧
    ∀ (k : Nat) (old new : ServiceHistoryItem), hist[k]? = some old →
      (applyAdminAction hist a)[k]? = some new → StepForward old new := by
  by_cases hr : actionRendered hist a = true
  · cases a with
    | approve i =>
      have hrA := hr
      simp only [actionRendered] at hrA
      rcases List.any_eq_true.mp hrA with ⟨s0, hs0, hcond⟩
      simp only [Bool.and_eq_true, decide_eq_true_eq] at hcond
      have hs0price : s0.price = none := by
        by_contra hne
        have ht := hInv.2 s0 hs0 hne
        rw [hcond.2] at ht
        exact absurd ht (by decide)
      obtain ⟨v, hv⟩ : ∃ v, hist.find? (fun s => decide (s.id = i)) = some v := by
        cases hq : hist.find? (fun s => decide (s.id = i)) with
        | none =>
          rw [List.find?_eq_none] at hq
          exact absurd (by simp [hcond.1]) (hq s0 hs0)
        | some v => exact ⟨v, rfl⟩
      have happ : applyAdminAction hist (AdminAction.approve i) =
          hist.map (fun s => if s.id = i then
            { s with status := ServiceStatus.Aprobado } else s) := by
        simp [applyAdminAction, handleApprove, hr, hv]
      rw [happ]
      exact update_core hist i _ (fun s => rfl) hInv s0 hs0 hcond.1
        ⟨Or.inr (by simp [statusRank, hcond.2]), fun hp => absurd rfl hp⟩
        (fun hp => absurd hs0price hp)
    | process i =>
      have hrA := hr
      simp only [actionRendered] at hrA
      rcases List.any_eq_true.mp hrA with ⟨s0, hs0, hcond⟩
      simp only [Bool.and_eq_true, decide_eq_true_eq] at hcond
      have hs0price : s0.price = none := by
        by_contra hne
        have ht := hInv.2 s0 hs0 hne
        rw [hcond.2] at ht
        exact absurd ht (by decide)
      obtain ⟨v, hv⟩ : ∃ v, hist.find? (fun s => decide (s.id = i)) = some v := by
        cases hq : hist.find? (fun s => decide (s.id = i)) with
        | none =>
          rw [List.find?_eq_none] at hq
          exact absurd (by simp [hcond.1]) (hq s0 hs0)
        | some v => exact ⟨v, rfl⟩
      have happ : applyAdminAction hist (AdminAction.process i) =
          hist.map (fun s => if s.id = i then
            { s with status := ServiceStatus.EnProceso } else s) := by
        simp [applyAdminAction, handleProcess, hr, hv]
      rw [happ]
      exact update_core hist i _ (fun s => rfl) hInv s0 hs0 hcond.1
        ⟨Or.inr (by simp [statusRank, hcond.2]), fun hp => absurd rfl hp⟩
        (fun hp => absurd hs0price hp)
    | finish i price =>
      have hrA := hr
      simp only [actionRendered] at hrA
      rcases List.any_eq_true.mp hrA with ⟨s0, hs0, hcond⟩
      simp only [Bool.and_eq_true, decide_eq_true_eq] at hcond
      have hs0price : s0.price = none := by
        by_contra hne
        have ht := hInv.2 s0 hs0 hne
        rw [hcond.2] at ht
        exact absurd ht (by decide)
      obtain ⟨v, hv⟩ : ∃ v, hist.find? (fun s => decide (s.id = i)) = some v := by
        cases hq : hist.find? (fun s => decide (s.id = i)) with
        | none =>
          rw [List.find?_eq_none] at hq
          exact absurd (by simp [hcond.1]) (hq s0 hs0)
        | some v => exact ⟨v, rfl⟩
      cases price with
      | none =>
        have happ : applyAdminAction hist (AdminAction.finish i none) = hist := by
          simp [applyAdminAction, handleFinish, hr, hv]
        rw [happ]
        exact identity_core hist hInv
      | some p =>
        by_cases htr : trimJS p ≠ []
        · have happ : applyAdminAction hist (AdminAction.finish i (some p)) =
              hist.map (fun s => if s.id = i then
                { s with status := ServiceStatus.Terminado, price := some p }
              else s) := by
            simp [applyAdminAction, handleFinish, hr, hv, htr]
          rw [happ]
          exact update_core hist i _ (fun s => rfl) hInv s0 hs0 hcond.1
            ⟨Or.inr (by simp [statusRank, hcond.2]),
             fun _ => ⟨hs0price, hcond.2, rfl⟩⟩
            (fun _ => rfl)
        · have happ : applyAdminAction hist (AdminAction.finish i (some p)) =
              hist := by
            simp [applyAdminAction, handleFinish, hr, hv, htr]
          rw [happ]
          exact identity_core hist hInv
  · have happ : applyAdminAction hist a = hist := by
      unfold applyAdminAction
      rw [if_neg hr]
    rw [happ]
    exact identity_core hist hInv

/-- Along any sequence of rendered admin interactions the invariant is
preserved and each record's status rank never decreases. -/
lemma applyAdminActions_core (acts : List AdminAction)
    (hist : List ServiceHistoryItem) (hInv : HistInv hist) :
    (applyAdminActions hist acts).length = hist.length ∧
    HistInv (applyAdminActions hist acts) ∧
    ∀ (k : Nat) (old new : ServiceHistoryItem), hist[k]? = some old →
      (applyAdminActions hist acts)[k]? = some new →
      statusRank old.status ≤ statusRank new.status := by
  induction acts generalizing hist with
  | nil =>
    refine ⟨rfl, hInv, fun k old new h1 h2 => ?_⟩
    have h2a : hist[k]? = some new := h2
    rw [h1] at h2a
    cases Option.some.inj h2a
    exact Nat.le_refl _
  | cons a rest ih =>
    have hstep := applyAdminAction_core hist a hInv
    have hih := ih (applyAdminAction hist a) hstep.2.1
    have hfold : applyAdminActions hist (a :: rest) =
        applyAdminActions (applyAdminAction hist a) rest := rfl
    refine ⟨by rw [hfold, hih.1, hstep.1], by rw [hfold]; exact hih.2.1,
      fun k old new h1 h2 => ?_⟩
    have hk : k < hist.length := by
      rcases List.getElem?_eq_some.mp h1 with ⟨hlt, -⟩
      exact hlt
    obtain ⟨mid, hmid⟩ : ∃ m, (applyAdminAction hist a)[k]? = some m := by
      have hlen : k < (applyAdminAction hist a).length := by
        rw [hstep.1]
        exact hk
      exact ⟨_, List.getElem?_eq_getElem hlen⟩
    have h12 := hstep.2.2 k old mid h1 hmid
    have h23 := hih.2.2 k mid new hmid (by rw [← hfold]; exact h2)
    have hle : statusRank old.status ≤ statusRank mid.status := by
      rcases h12.1 with he | hs
      · rw [he]
      · omega
    exact hle.trans h23

/-- Claim C9: starting from a history satisfying the reachability
invariant (fresh distinct ids, price only on `Terminado`), every rendered
admin interaction moves each record's status at most one stage forward
along `Pendiente → Aprobado → En Proceso → Terminado` — never backward
and never skipping — and changes the price only from `null` on the
transition into `Terminado`; hence along every sequence of interactions
each record's status only advances. -/
theorem C9_status_forward :
    (∀ (hist : List ServiceHistoryItem) (a : AdminAction), HistInv hist →
      (applyAdminAction hist a).length = hist.length ∧
      HistInv (applyAdminAction hist a) ∧
      ∀ (k : Nat) (old new : ServiceHistoryItem), hist[k]? = some old →
        (applyAdminAction hist a)[k]? = some new → StepForward old new) ∧
    (∀ (hist : List ServiceHistoryItem) (acts : List AdminAction),
      HistInv hist →
      ∀ (k : Nat) (old new : ServiceHistoryItem), hist[k]? = some old →
        (applyAdminActions hist acts)[k]? = some new →
        statusRank old.status ≤ statusRank new.status) :=
  ⟨fun hist a h => applyAdminAction_core hist a h,
   fun hist acts h => (applyAdminActions_core acts hist h).2.2⟩

/-- Witness for C9: approving a concrete pending record yields exactly
the one-stage forward move. -/
theorem C9_status_forward_witness :
    StepForward
      (ServiceHistoryItem.mk (str "1") (str "n") (str "p") (str "a") (str "d")
        0 ServiceStatus.Pendiente none)
      (ServiceHistoryItem.mk (str "1") (str "n") (str "p") (str "a") (str "d")
        0 ServiceStatus.Aprobado none) :=
  (C9_status_forward.1
    [ServiceHistoryItem.mk (str "1") (str "n") (str "p") (str "a") (str "d")
      0 ServiceStatus.Pendiente none]
    (AdminAction.approve (str "1"))
    (by constructor
        · decide
        · decide)).2.2 0 _ _ (by decide) (by decide)
